import Mathlib

/-!
Verification of the move-parsing / move-resolution core of the Chess-Helper
repository, shallowly embedded from `src/app/src/chess.ts` and
`src/app/src/chessboard/component-chessboard/index.ts`.

Squares are the 2-character names used by the source (`TArea`, e.g. "e4"),
piece kinds are the single lowercase letters of `TPiece`, and templates keep
the source's "literal-or-`.`-wildcard" pattern axes.
-/

/-- Square names, e.g. "e4" (source type `TArea`). -/
abbrev TArea := String

/-- Piece letters `p n b r q k` and the wildcard `.` (source type `TPiece`,
single-character strings, modelled as `Char`). -/
abbrev TPiece := Char

/-- The coarse keyboard direction classifier (source enum `KeyDirection`). -/
inductive KeyDirection where
  | GENERAL
  | LEFT
  | RIGHT
deriving DecidableEq, Repr

/-- A move template (source `IMoveTemplate`): `piece` is a letter or the `.`
wildcard, `fromSq`/`toSq` are 2-character square patterns whose axes may each be
a literal or `.`.  The source fields `from`/`to` are Lean keywords, hence
`fromSq`/`toSq`. -/
structure IMoveTemplate where
  piece : TPiece
  fromSq : TArea
  toSq : TArea
  promotionPiece : Option TPiece := none
deriving DecidableEq, Repr

/-- A resolved move (source `IMove`).  It has the same fields as a template
(the resolver produces it by overriding `from` with a concrete square). -/
abbrev IMove := IMoveTemplate

/-- One entry of the piece setup returned by `getPiecesSetup` (source: the
values of the square-keyed record `{color, type, area}`). -/
structure PieceEntry where
  color : Nat
  type : TPiece
  area : TArea
deriving DecidableEq, Repr

/-- A piece of the host game's collection (source `IPiece`: `{square, type,
color}`, with color 1 = white, 2 = black). -/
structure IPiece where
  square : TArea
  type : TPiece
  color : Nat
deriving DecidableEq, Repr

/-- The data of a move event (source `move.data.move` as used by `onMove`).
`capturedStr` is the captured piece's letter when the move is a capture. -/
structure MoveData where
  san : String
  color : Nat
  piece : TPiece
  fromSq : TArea
  toSq : TArea
  capturedStr : Option Char := none
deriving DecidableEq, Repr

/-- A JS record keyed by `KeyDirection`, kept in insertion order (setting an
existing key updates it in place, setting a new key appends). -/
abbrev DirectionMap := List (KeyDirection × TArea)

/-- The directional piece map (source `Record<TPiece, Record<KeyDirection,
TArea>>`), as an insertion-ordered record. -/
abbrev PieceMap := List (TPiece × DirectionMap)

/-- Lookup in an insertion-ordered record (JS `m[k]`, `none` = `undefined`). -/
def recGet {α β : Type} [DecidableEq α] (m : List (α × β)) (k : α) : Option β :=
  (m.find? (fun e => e.1 = k)).map (·.2)

/-- Assignment in an insertion-ordered record (JS `m[k] = v`). -/
def recSet {α β : Type} [DecidableEq α] (m : List (α × β)) (k : α) (v : β) :
    List (α × β) :=
  if m.any (fun e => e.1 = k) then
    m.map (fun e => if e.1 = k then (k, v) else e)
  else
    m ++ [(k, v)]

/-- Key deletion in an insertion-ordered record (JS `delete m[k]`). -/
def recDelete {α β : Type} [DecidableEq α] (m : List (α × β)) (k : α) :
    List (α × β) :=
  m.filter (fun e => ¬ e.1 = k)

/-- Two-level lookup `pieceMap[piece] && pieceMap[piece][direction]`. -/
def recGet2 (pm : PieceMap) (piece : TPiece) (direction : KeyDirection) :
    Option TArea :=
  match recGet pm piece with
  | none => none
  | some dm => recGet dm direction

/-- First character of a string (JS `s[0]`; squares are always non-empty, the
default is never reached for them). -/
def charAt (s : String) (i : Nat) : Char :=
  s.toList.getD i (Char.ofNat 0)

/-- Modelled from the spec: `squareToCoords` lives in `utils.ts`, which is not
among the provided sources.  Per its uses ("determine the destination rank" in
the resolver, and the castling file arithmetic with the 1-based file table
`["", "a", ..., "h"]`), it converts a square name to 1-based (file, rank)
coordinates. -/
def squareToCoords (square : TArea) : Nat × Nat :=
  ((charAt square 0).toNat + 1 - 'a'.toNat, (charAt square 1).toNat - '0'.toNat)

/-- Character class `[a-h]`. -/
def isFileChar (c : Char) : Bool := 'a'.toNat ≤ c.toNat && c.toNat ≤ 'h'.toNat

/-- Character class `[1-8]`. -/
def isRankChar (c : Char) : Bool := '1'.toNat ≤ c.toNat && c.toNat ≤ '8'.toNat

/-- Check if input is a valid square name (source `validateSquareName`, regex
`^[a-h][1-8]$`). -/
def validateSquareName (input : String) : Bool :=
  match input.toList with
  | [f, r] => isFileChar f && isRankChar r
  | _ => false

/-- Parse the simplest move format, e.g. `e2e4` (source `parseUCI`).  The
source first deletes every space and dash (`replace(/( |-)+/g, "")`). -/
def parseUCI (input : String) : List IMoveTemplate :=
  let filteredSymbols := input.toList.filter (fun c => !(c == ' ' || c == '-'))
  let fromSquare : TArea := String.mk (filteredSymbols.take 2)
  let toSquare : TArea := String.mk ((filteredSymbols.drop 2).take 2)
  let promotion := (filteredSymbols.drop 4).take 1
  if validateSquareName fromSquare && validateSquareName toSquare then
    [{ piece := '.', fromSq := fromSquare, toSq := toSquare,
       promotionPiece := promotion.head? }]
  else
    []

/-- JS regex `\s`: the ECMAScript WhiteSpace code points (TAB, VT, FF, SP,
NBSP, ZWNBSP and the Unicode Space_Separator category) together with the
LineTerminator code points (LF, CR, LS, PS). -/
def isSpace (c : Char) : Bool :=
  decide (c.toNat ∈
    [9, 10, 11, 12, 13, 32, 160, 5760, 8192, 8193, 8194, 8195, 8196, 8197,
     8198, 8199, 8200, 8201, 8202, 8232, 8233, 8239, 8287, 12288, 65279])

/-- The characters deleted by `parseAlgebraic`'s
`input.replace(/[\s\-\(\)]+/g, "")`. -/
def isStrippedChar (c : Char) : Bool :=
  isSpace c || c == '-' || c == '(' || c == ')'

/-- Whitespace/dash/parenthesis stripping of `parseAlgebraic`. -/
def stripAlg (cs : List Char) : List Char :=
  cs.filter (fun c => !isStrippedChar c)

/-- Character class `[rqknb]` of the strict-UCI-shape rejection regex. -/
def isPromoRejChar (c : Char) : Bool :=
  c == 'r' || c == 'q' || c == 'k' || c == 'n' || c == 'b'

/-- The strict-UCI-shape test `/^\s*[a-h][1-8][a-h][1-8][rqknb]?\s*$/` with
which `parseAlgebraic` rejects UCI-looking input. -/
def uciShape (cs : List Char) : Bool :=
  match cs.dropWhile isSpace with
  | f1 :: r1 :: f2 :: r2 :: rest =>
    isFileChar f1 && isRankChar r1 && isFileChar f2 && isRankChar r2 &&
      (match rest with
       | [] => true
       | c :: rest2 =>
         if isPromoRejChar c then rest2.all isSpace else (c :: rest2).all isSpace)
  | _ => false

/-- Character class `[o0]` with the `i` flag, i.e. `{o, O, 0}`. -/
def isO (c : Char) : Bool := c == 'o' || c == 'O' || c == '0'

/-- Unanchored test `/[o0][o0]/i`: two consecutive castling characters. -/
def hasOO : List Char → Bool
  | a :: b :: rest => (isO a && isO b) || hasOO (b :: rest)
  | _ => false

/-- Unanchored test `/[o0][o0][o0]/i`: three consecutive castling characters. -/
def hasOOO : List Char → Bool
  | a :: b :: c :: rest => (isO a && isO b && isO c) || hasOOO (b :: c :: rest)
  | _ => false

/-- Character class `[qrnbQRNB]` of the pawn promotion group. -/
def isPromoCaseChar (c : Char) : Bool :=
  c == 'q' || c == 'r' || c == 'n' || c == 'b' ||
    c == 'Q' || c == 'R' || c == 'N' || c == 'B'

/-- Tail `(=[qrnbQRNB])?[+#]?$` of the pawn regex.  Returns the raw text
captured by the promotion group (`"=X"` as a character list) when it is
present.  The alternative orderings mirror the JS engine's greedy backtracking,
which is deterministic here (no later alternative can consume `=`, `+` or
`#`). -/
def promoSuffix : List Char → Option (Option (List Char))
  | [] => some none
  | '=' :: rest =>
    match rest with
    | c :: rest2 =>
      if isPromoCaseChar c then
        match rest2 with
        | [] => some (some ['=', c])
        | [x] => if x == '+' || x == '#' then some (some ['=', c]) else none
        | _ => none
      else none
    | [] => none
  | [c] => if c == '+' || c == '#' then some none else none
  | _ => none

/-- The part of the en-passant group `(e\.?p\.?)?` after its leading `e`,
i.e. `\.?p\.?`; returns the unconsumed remainder.  Greedy dot consumption is
deterministic because no later regex group can start with `.`. -/
def epRest : List Char → Option (List Char)
  | '.' :: 'p' :: '.' :: rest => some rest
  | '.' :: 'p' :: rest => some rest
  | 'p' :: '.' :: rest => some rest
  | 'p' :: rest => some rest
  | _ => none

/-- Tail `(e\.?p\.?)?(=[qrnbQRNB])?[+#]?$` of the pawn regex.  If the text
starts with `e` the en-passant group must match (no later group can consume an
`e`). -/
def pawnSuffix : List Char → Option (Option (List Char))
  | 'e' :: rest =>
    match epRest rest with
    | some rem => promoSuffix rem
    | none => none
  | cs => promoSuffix cs

/-- Tail `(x)?([a-h])([1-8])...` of the pawn regex, after the optional origin
file.  Returns (toFile, toRank, promotion group text).  An `x` must be
consumed when present because `x` is not a file character. -/
def pawnCore (cs : List Char) : Option (Char × Char × Option (List Char)) :=
  match cs with
  | 'x' :: f :: r :: rest =>
    if isFileChar f && isRankChar r then
      (pawnSuffix rest).map (fun pr => (f, r, pr))
    else none
  | f :: r :: rest =>
    if isFileChar f && isRankChar r then
      (pawnSuffix rest).map (fun pr => (f, r, pr))
    else none
  | _ => none

/-- The full pawn regex
`/^([a-h])?(x)?([a-h])([1-8])(e\.?p\.?)?(=[qrnbQRNB])?[+#]?$/` (source
`pawnRegex`).  Returns (fromFile, toFile, toRank, promotion group text); the
optional origin file is tried greedily first, falling back to the
absent-group alternative exactly as the JS engine backtracks. -/
def pawnResult (cs : List Char) :
    Option (Option Char × Char × Char × Option (List Char)) :=
  match cs with
  | c :: rest =>
    if isFileChar c then
      match pawnCore rest with
      | some (f, r, pr) => some (some c, f, r, pr)
      | none => (pawnCore cs).map (fun x => (none, x.1, x.2.1, x.2.2))
    else
      (pawnCore cs).map (fun x => (none, x.1, x.2.1, x.2.2))
  | [] => none

/-- Character class `[RQKNBrqknb]` of the piece regex. -/
def isPieceLetter (c : Char) : Bool :=
  c == 'R' || c == 'Q' || c == 'K' || c == 'N' || c == 'B' ||
    c == 'r' || c == 'q' || c == 'k' || c == 'n' || c == 'b'

/-- Tail `([1-8])?[+#]?$` of the piece regex; returns the optional
destination rank. -/
def pieceSuffix : List Char → Option (Option Char)
  | [] => some none
  | [r] =>
    if isRankChar r then some (some r)
    else if r == '+' || r == '#' then some none
    else none
  | [r, c] =>
    if isRankChar r && (c == '+' || c == '#') then some (some r) else none
  | _ => none

/-- Tail `(x)?([a-h])([1-8])?[+#]?$` of the piece regex; returns
(toFile, toRank). -/
def pieceTail (cs : List Char) : Option (Char × Option Char) :=
  match cs with
  | 'x' :: f :: rest =>
    if isFileChar f then (pieceSuffix rest).map (fun tr => (f, tr)) else none
  | f :: rest =>
    if isFileChar f then (pieceSuffix rest).map (fun tr => (f, tr)) else none
  | _ => none

/-- The `([a-h])?([1-8])?(x)?...` part of the piece regex after the piece
letter; the four alternatives are tried in the JS engine's greedy order.
Returns (fromFile, fromRank, toFile, toRank). -/
def pieceAfterLetter (cs : List Char) :
    Option (Option Char × Option Char × Char × Option Char) :=
  (match cs with
   | f :: r :: rest =>
     if isFileChar f && isRankChar r then
       (pieceTail rest).map (fun x => (some f, some r, x.1, x.2))
     else none
   | _ => none) <|>
  (match cs with
   | f :: rest =>
     if isFileChar f then
       (pieceTail rest).map (fun x => (some f, none, x.1, x.2))
     else none
   | _ => none) <|>
  (match cs with
   | r :: rest =>
     if isRankChar r then
       (pieceTail rest).map (fun x => (none, some r, x.1, x.2))
     else none
   | _ => none) <|>
  (pieceTail cs).map (fun x => (none, none, x.1, x.2))

/-- The full piece regex
`/^([RQKNBrqknb])([a-h])?([1-8])?(x)?([a-h])([1-8])?[+#]?$/` (source
`pieceRegex`).  Returns (pieceName, fromFile, fromRank, toFile, toRank). -/
def pieceResult (cs : List Char) :
    Option (Char × Option Char × Option Char × Char × Option Char) :=
  match cs with
  | p :: rest =>
    if isPieceLetter p then
      (pieceAfterLetter rest).map (fun x => (p, x.1, x.2.1, x.2.2.1, x.2.2.2))
    else none
  | [] => none

/-- Extract all possible information from algebraic notation (source
`parseAlgebraic`).  An `Except.error` models the JS `TypeError` that
`promotion[1].toLowerCase()` would raise if the promotion capture were shorter
than two characters (it never is; see `parseMoveInput_total`). -/
def parseAlgebraic (input : String) : Except String (List IMoveTemplate) :=
  if uciShape input.toList then .ok [] else
  let moveString := stripAlg input.toList
  if hasOOO moveString then
    .ok [{ piece := 'k', fromSq := "e1", toSq := "c1" },
         { piece := 'k', fromSq := "e8", toSq := "c8" }]
  else if hasOO moveString then
    .ok [{ piece := 'k', fromSq := "e1", toSq := "g1" },
         { piece := 'k', fromSq := "e8", toSq := "g8" }]
  else do
    let pawnMoves : List IMoveTemplate ←
      match pawnResult moveString with
      | some (fromFile, toFile, toRank, promotion) =>
        if fromFile = some toFile then
          -- Do nothing: disables moves like `bb4` for pawns, to avoid
          -- ambiguity with bishops
          pure []
        else do
          let promotionPiece : Option TPiece ←
            match promotion with
            | none => pure none
            | some g =>
              match g.get? 1 with
              | some c => pure (some c.toLower)
              | none => Except.error "TypeError: promotion[1] is undefined"
          pure [{ piece := 'p',
                  fromSq := String.mk [fromFile.getD '.', '.'],
                  toSq := String.mk [toFile, toRank],
                  promotionPiece := promotionPiece }]
      | none => pure []
    let pieceMoves : List IMoveTemplate :=
      match pieceResult moveString with
      | some (pieceName, fromFile, fromVer, toFile, toRank) =>
        [{ piece := pieceName.toLower,
           fromSq := String.mk [fromFile.getD '.', fromVer.getD '.'],
           toSq := String.mk [toFile, toRank.getD '.'] }]
      | none => []
    pure (pawnMoves ++ pieceMoves)

/-- Parse message input by the user (source `parseMoveInput`):
`[...parseUCI(input), ...parseAlgebraic(input)]`. -/
def parseMoveInput (input : String) : Except String (List IMoveTemplate) := do
  let algebraic ← parseAlgebraic input
  pure (parseUCI input ++ algebraic)

/-- Matching of a template pattern against text, axis by axis: each pattern
position is a literal or the `.` wildcard.  This is what the source's
`new RegExp("^" + pattern + "$").test(text)` computes for the patterns the
parser emits (whose characters are only square/piece letters and `.`). -/
def matchPattern : List Char → List Char → Bool
  | [], [] => true
  | p :: ps, c :: cs => (p == '.' || p == c) && matchPattern ps cs
  | _, _ => false

/-- Exclude moves conflicting between each other (source
`excludeConflictingMoves`): if the sorted piece letters joined are exactly
`"bp"`, only the pawn move is kept.  The source casts `moves.find(...)` to
`IMove`; the `none` fallback is unreachable because the condition guarantees a
pawn move is present. -/
def excludeConflictingMoves (moves : List IMove) : List IMove :=
  let piecesString := (moves.map (·.piece)).insertionSort (· ≤ ·)
  if piecesString = ['b', 'p'] then
    match moves.find? (fun m => m.piece == 'p') with
    | some pawnMove => [pawnMove]
    | none => []
  else moves

/-- Get exact from and to coords from move data (source `getLegalMoves`).
The board adapter is abstracted by its piece setup, legality oracle and
turn flag; the source's `!board` guard has no counterpart because the board
is not nullable here. -/
def getLegalMoves (pieces : List PieceEntry) (isLegalMove : TArea → TArea → Bool)
    (isPlayersMove : Bool) (potentialMoves : List IMoveTemplate) : List IMove :=
  if potentialMoves.isEmpty || !isPlayersMove then []
  else
    excludeConflictingMoves <| potentialMoves.flatMap fun move =>
      let toYCoord := (squareToCoords move.toSq).2
      let matchingPieces := pieces.filter fun p =>
        -- Treat promotion moves without "promotionPiece" as invalid
        if p.type == 'p' && (toYCoord == 1 || toYCoord == 8)
            && move.promotionPiece.isNone then
          false
        else
          matchPattern [move.piece] [p.type]
            && matchPattern move.fromSq.toList p.area.toList
            && isLegalMove p.area move.toSq
      matchingPieces.map fun p => { move with fromSq := p.area }

/-- The common tail of `narrowDownMoves`: the `["n", "r", "q"].includes(piece)`
lookup in the directional piece map followed by the final `return null`. -/
def nrqStep (pieceMap : PieceMap) (potentialMoves : List IMove)
    (piece : TPiece) (direction : KeyDirection) : Option IMove :=
  if ['n', 'r', 'q'].contains piece then
    match recGet2 pieceMap piece direction with
    | some startingSquare =>
      match potentialMoves.filter (fun move => move.fromSq == startingSquare) with
      | [m] => some m
      | _ => none
    | none => none
  else none

/-- The keyboard move disambiguator (source `narrowDownMoves`).  The result is
wrapped in `Except` because the source can throw (`"Unsupported key
direction"`); that branch is unreachable here since `KeyDirection` has exactly
the three enum values, so every path returns `.ok`.  In the source's
GENERAL-pawn filter the callback body is the bare statement
`move.from[0] === move.to[0];` without `return`, so it yields `undefined` and
the filter keeps nothing; the embedding reproduces that with a constantly
false predicate. -/
def narrowDownMoves (pieceMap : PieceMap) (potentialMoves : List IMove)
    (piece : TPiece) (direction : KeyDirection) (flipped : Bool) :
    Except String (Option IMove) :=
  if piece = 'p' then
    -- Check for autopromotion.  `Array.prototype.every` on an empty array is
    -- true without evaluating the callback, so `potentialMoves[0]` being
    -- undefined is harmless.
    let everyMoveStartsFromSameSquare :=
      match potentialMoves with
      | [] => true
      | firstMove :: _ => potentialMoves.all (fun move => move.fromSq == firstMove.fromSq)
    let queenPromotionMove :=
      if everyMoveStartsFromSameSquare then
        potentialMoves.find? (fun move => move.promotionPiece == some 'q')
      else none
    match queenPromotionMove with
    | some m => .ok (some m)
    | none =>
      match direction with
      | .GENERAL =>
        let forwardMoves := potentialMoves.filter (fun _ => false)
        match forwardMoves with
        | [m] => .ok (some m)
        | _ => .ok (nrqStep pieceMap potentialMoves piece direction)
      | .LEFT =>
        let leftMoves := potentialMoves.filter (fun move =>
          if flipped then charAt move.toSq 0 < charAt move.fromSq 0
          else charAt move.fromSq 0 < charAt move.toSq 0)
        match leftMoves with
        | [m] => .ok (some m)
        | _ => .ok (nrqStep pieceMap potentialMoves piece direction)
      | .RIGHT =>
        let rightMoves := potentialMoves.filter (fun move =>
          if flipped then charAt move.fromSq 0 < charAt move.toSq 0
          else charAt move.toSq 0 < charAt move.fromSq 0)
        match rightMoves with
        | [m] => .ok (some m)
        | _ => .ok (nrqStep pieceMap potentialMoves piece direction)
  else .ok (nrqStep pieceMap potentialMoves piece direction)

/-- Query the directional piece map (source `ComponentChessboard.getPieceMap`):
throws when the map has not been initialized (`this.pieceMap === null`). -/
def getPieceMap (pieceMap : Option PieceMap) : Except String PieceMap :=
  match pieceMap with
  | none => .error "Piece map is not initialized"
  | some pm => .ok pm

/-- Write one entry of the directional piece map (source
`ComponentChessboard.setPieceMap`; the `update` coloring flag only touches the
DOM and is omitted). -/
def setPieceMap (pm : PieceMap) (piece : TPiece) (direction : KeyDirection)
    (square : TArea) : PieceMap :=
  let directionMap := (recGet pm piece).getD []
  recSet pm piece (recSet directionMap direction square)

/-- Delete one entry of the directional piece map (source
`ComponentChessboard.deleteFromPieceMap`); errors mirror its two throws. -/
def deleteFromPieceMap (pm : PieceMap) (piece : TPiece)
    (direction : KeyDirection) : Except String PieceMap :=
  match recGet pm piece with
  | none => .error "Unable to find piece in piece map"
  | some directionMap =>
    match recGet directionMap direction with
    | none => .error "Unable to find direction for piece"
    | some _ => .ok (recSet pm piece (recDelete directionMap direction))

/-- The `for (const mapDirection in directionMap)` loop of the own-move branch
of `onMove`: each direction key whose (freshly read) square equals the move's
origin is rewritten to the destination.  The key list is the snapshot taken
when the loop starts; value updates do not change the key set. -/
def onMoveOwnLoop (piece : TPiece) (fromSq toSq : TArea) :
    PieceMap → List KeyDirection → PieceMap
  | pm, [] => pm
  | pm, d :: rest =>
    let pm' := if recGet2 pm piece d = some fromSq
               then setPieceMap pm piece d toSq else pm
    onMoveOwnLoop piece fromSq toSq pm' rest

/-- The `Object.entries(rooksDirectionMap).forEach` loop of the castling
branch: the `return` inside the callback only ends one iteration, so every
entry of the snapshot on the king's rank and castling side is rewritten. -/
def castleLoop (kingCoords : Nat × Nat) (isKingSide : Bool) (rookSquare : TArea) :
    PieceMap → List (KeyDirection × TArea) → PieceMap
  | pm, [] => pm
  | pm, (direction, square) :: rest =>
    let rookCoords := squareToCoords square
    let isSameRank := kingCoords.2 = rookCoords.2
    let isCorrectSide := if isKingSide then kingCoords.1 < rookCoords.1
                         else rookCoords.1 < kingCoords.1
    let pm' := if isSameRank ∧ isCorrectSide
               then setPieceMap pm 'r' direction rookSquare else pm
    castleLoop kingCoords isKingSide rookSquare pm' rest

/-- Maintenance of the directional piece map on a move event (source
`ComponentChessboard.onMove`, with `playingAs` passed in rather than read from
the host game).  The castling branch reads `pieceMap["r"]` unconditionally;
when no rook entry exists, `Object.keys(undefined)` throws, modelled by the
`.error` case. -/
def onMove (pm : PieceMap) (playingAs : Nat) (moveData : MoveData) :
    Except String PieceMap :=
  if moveData.color = playingAs then
    if moveData.san = "O-O" ∨ moveData.san = "O-O-O" then
      match recGet pm 'r' with
      | none => .error "TypeError: cannot convert undefined to object"
      | some rooksDirectionMap =>
        let isKingSide := moveData.san = "O-O"
        let kingCoords := squareToCoords moveData.toSq
        let rookFileNum := if isKingSide then kingCoords.1 - 1 else kingCoords.1 + 1
        let rookFile := ["", "a", "b", "c", "d", "e", "f", "g", "h"].getD rookFileNum ""
        let rookSquare : TArea := rookFile ++ toString kingCoords.2
        -- If there is only one rook on the board, we can assume that it is
        -- the one that castled
        match rooksDirectionMap with
        | [(direction, _)] => .ok (setPieceMap pm 'r' direction rookSquare)
        | _ => .ok (castleLoop kingCoords isKingSide rookSquare pm rooksDirectionMap)
    else
      match recGet pm moveData.piece with
      | none => .ok pm
      | some directionMap =>
        .ok (onMoveOwnLoop moveData.piece moveData.fromSq moveData.toSq pm
              (directionMap.map (·.1)))
  else
    match moveData.capturedStr with
    | none => .ok pm
    | some capturedStr =>
      let capturedPiece := capturedStr.toLower
      match recGet pm capturedPiece with
      | none => .ok pm
      | some directionMap =>
        -- find the first direction mapping to the capture square (the source
        -- breaks out of the loop at the first hit)
        match directionMap.find? (fun e => e.2 == moveData.toSq) with
        | none => .ok pm
        | some (deleteDirection, _) =>
          deleteFromPieceMap pm capturedPiece deleteDirection

/-- The sort comparator of `initializePieceMap`: by file (left to right) and
then rank (top to bottom) from the perspective of the player. -/
def pieceComparator (playingAs : Nat) (a b : IPiece) : Int :=
  let fileA : Int := (charAt a.square 0).toNat
  let fileB : Int := (charAt b.square 0).toNat
  let rankA : Int := (charAt a.square 1).toNat - '0'.toNat
  let rankB : Int := (charAt b.square 1).toNat - '0'.toNat
  if playingAs = 1 then
    -- If playing as white
    if fileA ≠ fileB then fileA - fileB else rankB - rankA
  else
    if fileA ≠ fileB then fileB - fileA else rankA - rankB

/-- The ordering induced by `pieceComparator`, as used by `Array.sort`. -/
def persLE (playingAs : Nat) (a b : IPiece) : Prop :=
  pieceComparator playingAs a b ≤ 0

instance (playingAs : Nat) : DecidableRel (persLE playingAs) :=
  fun a b => inferInstanceAs (Decidable (pieceComparator playingAs a b ≤ 0))

/-- The `processPieces` closure of `initializePieceMap`: the first piece of
the sorted list is registered as GENERAL and the last one — when it is a
different element, i.e. when the list has at least two entries — as RIGHT. -/
def processPieces (pm : PieceMap) : List IPiece → PieceMap
  | [] => pm
  | generalPiece :: rest =>
    let pm1 := setPieceMap pm generalPiece.type .GENERAL generalPiece.square
    match rest with
    | [] => pm1
    | r :: rs =>
      let rightPiece := (r :: rs).getLast (List.cons_ne_nil r rs)
      setPieceMap pm1 rightPiece.type .RIGHT rightPiece.square

/-- Build the directional piece map from the current piece collection (source
`ComponentChessboard.initializePieceMap`): the player's rooks, knights and
queens are each sorted by the perspective comparator and processed in that
order, starting from the empty map. -/
def initializePieceMap (allPieces : List IPiece) (playingAs : Nat) : PieceMap :=
  let playerPieces := allPieces.filter (fun piece => piece.color = playingAs)
  let rooks := playerPieces.filter (fun piece => piece.type = 'r')
  let knights := playerPieces.filter (fun piece => piece.type = 'n')
  let queens := playerPieces.filter (fun piece => piece.type = 'q')
  let pm1 := processPieces [] (rooks.insertionSort (persLE playingAs))
  let pm2 := processPieces pm1 (knights.insertionSort (persLE playingAs))
  processPieces pm2 (queens.insertionSort (persLE playingAs))

/-- The standard chess starting layout as a piece collection (white = color 1,
black = color 2). -/
def standardStartPieces : List IPiece :=
  [⟨"a1", 'r', 1⟩, ⟨"b1", 'n', 1⟩, ⟨"c1", 'b', 1⟩, ⟨"d1", 'q', 1⟩,
   ⟨"e1", 'k', 1⟩, ⟨"f1", 'b', 1⟩, ⟨"g1", 'n', 1⟩, ⟨"h1", 'r', 1⟩,
   ⟨"a2", 'p', 1⟩, ⟨"b2", 'p', 1⟩, ⟨"c2", 'p', 1⟩, ⟨"d2", 'p', 1⟩,
   ⟨"e2", 'p', 1⟩, ⟨"f2", 'p', 1⟩, ⟨"g2", 'p', 1⟩, ⟨"h2", 'p', 1⟩,
   ⟨"a8", 'r', 2⟩, ⟨"b8", 'n', 2⟩, ⟨"c8", 'b', 2⟩, ⟨"d8", 'q', 2⟩,
   ⟨"e8", 'k', 2⟩, ⟨"f8", 'b', 2⟩, ⟨"g8", 'n', 2⟩, ⟨"h8", 'r', 2⟩,
   ⟨"a7", 'p', 2⟩, ⟨"b7", 'p', 2⟩, ⟨"c7", 'p', 2⟩, ⟨"d7", 'p', 2⟩,
   ⟨"e7", 'p', 2⟩, ⟨"f7", 'p', 2⟩, ⟨"g7", 'p', 2⟩, ⟨"h7", 'p', 2⟩]

/-- The player's pieces of one kind, as filtered by `initializePieceMap`
(color filter first, then type filter). -/
def kindPieces (allPieces : List IPiece) (playingAs : Nat) (k : TPiece) :
    List IPiece :=
  (allPieces.filter (fun piece => piece.color = playingAs)).filter
    (fun piece => piece.type = k)

/-- Helper: a `match` selecting the unique element of a filtered list equals
the length-1 guarded head. -/
theorem singleton_match_eq_if (ms : List IMove) :
    (match ms with
     | [m] => some m
     | _ => (none : Option IMove)) =
      if ms.length = 1 then ms.head? else none := by
  match ms with
  | [] => rfl
  | [m] => rfl
  | a :: b :: t => simp

/-- C1: with piece = pawn and direction = GENERAL, two pawn candidates onto
e5 of which exactly one (e4→e5) keeps its file, the disambiguator returns
none instead of the unique straight-ahead candidate: the filter callback in
the source lacks a `return`, so `forwardMoves` is always empty. -/
theorem narrowDownMoves_pawn_general_bug :
    narrowDownMoves [] [⟨'p', "d4", "e5", none⟩, ⟨'p', "e4", "e5", none⟩]
        'p' KeyDirection.GENERAL false = .ok none
    ∧ (([⟨'p', "d4", "e5", none⟩, ⟨'p', "e4", "e5", none⟩] : List IMove).filter
        (fun m => charAt m.fromSq 0 == charAt m.toSq 0)).length = 1 :=
  ⟨rfl, rfl⟩

/-- C3 counterexample: invoked for the unsupported piece kind bishop with two
candidates, the disambiguator returns the normal outcome `none` — it does not
raise an error. -/
theorem narrowDownMoves_bishop_no_error_cex :
    narrowDownMoves [] [⟨'b', "c1", "f4", none⟩, ⟨'b', "g3", "f4", none⟩]
        'b' KeyDirection.GENERAL false = .ok none :=
  rfl

/-- C3 (amended): querying the directional piece map before initialization
raises an error, but the keyboard disambiguator invoked for an unsupported
piece kind (bishop or king) returns the normal outcome none rather than
raising. -/
theorem getPieceMap_error_and_unsupported_piece_none :
    getPieceMap none = .error "Piece map is not initialized"
    ∧ (∀ (pm : PieceMap) (cands : List IMove) (dir : KeyDirection) (flipped : Bool),
        narrowDownMoves pm cands 'b' dir flipped = .ok none)
    ∧ (∀ (pm : PieceMap) (cands : List IMove) (dir : KeyDirection) (flipped : Bool),
        narrowDownMoves pm cands 'k' dir flipped = .ok none) := by
  refine ⟨rfl, ?_, ?_⟩ <;>
    · intro pm cands dir flipped
      simp [narrowDownMoves, nrqStep]

/-- C9: for the tracked piece kinds knight, rook and queen, the disambiguator
looks up `pieceMap[piece][direction]`; with no registered square it returns
none, and with a registered square it returns the unique candidate starting
there (none when zero or several candidates match). -/
theorem narrowDownMoves_nrq (pieceMap : PieceMap) (potentialMoves : List IMove)
    (piece : TPiece) (direction : KeyDirection) (flipped : Bool)
    (hpiece : piece = 'n' ∨ piece = 'r' ∨ piece = 'q') :
    (recGet2 pieceMap piece direction = none →
      narrowDownMoves pieceMap potentialMoves piece direction flipped = .ok none)
    ∧ ∀ sq, recGet2 pieceMap piece direction = some sq →
        narrowDownMoves pieceMap potentialMoves piece direction flipped =
          .ok (if (potentialMoves.filter (fun m => m.fromSq == sq)).length = 1
               then (potentialMoves.filter (fun m => m.fromSq == sq)).head?
               else none) := by
  have hne : ¬ piece = 'p' := by
    rcases hpiece with h | h | h <;> subst h <;> decide
  have hmem : (['n', 'r', 'q'].contains piece) = true := by
    rcases hpiece with h | h | h <;> subst h <;> decide
  constructor
  · intro h0
    unfold narrowDownMoves
    rw [if_neg hne]
    simp [nrqStep, hmem, h0]
  · intro sq hsq
    unfold narrowDownMoves
    rw [if_neg hne]
    simp only [nrqStep, hmem, hsq, if_true]
    rw [singleton_match_eq_if]

/-- C9 witness: the spec's own example — rook candidates from a4 and h1 with
`rook.RIGHT = h1` registered select the h1 move. -/
theorem narrowDownMoves_nrq_witness :
    narrowDownMoves [('r', [(KeyDirection.RIGHT, "h1")])]
        [⟨'r', "a4", "a8", none⟩, ⟨'r', "h1", "h8", none⟩]
        'r' KeyDirection.RIGHT false = .ok (some ⟨'r', "h1", "h8", none⟩) := by
  have h := (narrowDownMoves_nrq [('r', [(KeyDirection.RIGHT, "h1")])]
      [⟨'r', "a4", "a8", none⟩, ⟨'r', "h1", "h8", none⟩]
      'r' KeyDirection.RIGHT false (Or.inr (Or.inl rfl))).2 "h1" rfl
  rw [h]
  rfl

/-- C2 counterexample: a list whose kind set is exactly {bishop, pawn} (one
bishop, two pawns) is returned unchanged — the bishop candidate is not
discarded, because the source compares the sorted joined kinds to the exact
string "bp". -/
theorem excludeConflictingMoves_kindset_cex :
    excludeConflictingMoves
        [⟨'b', "..", "c3", none⟩, ⟨'p', "b4", "c3", none⟩, ⟨'p', "d4", "c3", none⟩]
      = [⟨'b', "..", "c3", none⟩, ⟨'p', "b4", "c3", none⟩, ⟨'p', "d4", "c3", none⟩]
    ∧ (([⟨'b', "..", "c3", none⟩, ⟨'p', "b4", "c3", none⟩,
         ⟨'p', "d4", "c3", none⟩] : List IMove).map (·.piece)).toFinset
        = {'b', 'p'} := by
  constructor
  · rfl
  · decide

/-- C2 (amended): `excludeConflictingMoves` is the identity unless the list
consists of exactly two moves, one of kind bishop and one of kind pawn (in
either order), in which case only the pawn move is returned. -/
theorem excludeConflictingMoves_spec (moves : List IMove) :
    (∀ mb mp : IMove, (moves = [mb, mp] ∨ moves = [mp, mb]) →
        mb.piece = 'b' → mp.piece = 'p' → excludeConflictingMoves moves = [mp])
    ∧ ((¬ ∃ mb mp : IMove, (moves = [mb, mp] ∨ moves = [mp, mb])
          ∧ mb.piece = 'b' ∧ mp.piece = 'p') →
        excludeConflictingMoves moves = moves) := by
  constructor
  · rintro mb mp (rfl | rfl) hb hp <;>
      simp [excludeConflictingMoves, hb, hp]
  · intro hno
    by_cases hc :
        ((moves.map (fun m : IMove => m.piece)).insertionSort (· ≤ ·)) = ['b', 'p']
    · exfalso
      have hperm :
          List.Perm (moves.map (fun m : IMove => m.piece)) ['b', 'p'] :=
        hc ▸ (List.perm_insertionSort (· ≤ ·)
          (moves.map (fun m : IMove => m.piece))).symm
      have hlen : moves.length = 2 := by
        have := hperm.length_eq
        simpa using this
      match moves, hlen with
      | [m1, m2], _ =>
        have hmem : m1.piece ∈ (['b', 'p'] : List Char) :=
          hperm.subset (by simp)
        have hcount : ([m1.piece, m2.piece].count 'p')
            = (['b', 'p'].count 'p') := hperm.count_eq 'p'
        have hcount' : ([m1.piece, m2.piece].count 'b')
            = (['b', 'p'].count 'b') := hperm.count_eq 'b'
        rcases (by simpa using hmem : m1.piece = 'b' ∨ m1.piece = 'p') with h1 | h1
        · have h2 : m2.piece = 'p' := by
            by_contra h2
            rw [h1] at hcount
            simp [List.count_cons, h2] at hcount
          exact hno ⟨m1, m2, Or.inl rfl, h1, h2⟩
        · have h2 : m2.piece = 'b' := by
            by_contra h2
            rw [h1] at hcount'
            simp [List.count_cons, h2] at hcount'
          exact hno ⟨m2, m1, Or.inr rfl, h2, h1⟩
    · simp only [excludeConflictingMoves]
      rw [if_neg hc]

/-- C2 witness: one bishop plus one pawn candidate reduce to the pawn
candidate. -/
theorem excludeConflictingMoves_spec_witness :
    excludeConflictingMoves [⟨'b', "..", "c3", none⟩, ⟨'p', "b4", "c3", none⟩]
      = [⟨'p', "b4", "c3", none⟩] :=
  (excludeConflictingMoves_spec _).1 ⟨'b', "..", "c3", none⟩
    ⟨'p', "b4", "c3", none⟩ (Or.inl rfl) rfl rfl

theorem promoSuffix_shape (cs : List Char) (g : List Char)
    (h : promoSuffix cs = some (some g)) : ∃ c, g = ['=', c] := by
  unfold promoSuffix at h
  repeat' first | split at h | split_ifs at h
  all_goals simp_all
  all_goals exact ⟨_, h.symm⟩

theorem pawnSuffix_shape (cs : List Char) (g : List Char)
    (h : pawnSuffix cs = some (some g)) : ∃ c, g = ['=', c] := by
  unfold pawnSuffix at h
  repeat' split at h
  · exact promoSuffix_shape _ _ h
  · exact absurd h (by simp)
  · exact promoSuffix_shape _ _ h

theorem pawnCore_shape (cs : List Char) (f r : Char) (g : List Char)
    (h : pawnCore cs = some (f, r, some g)) : ∃ c, g = ['=', c] := by
  unfold pawnCore at h
  repeat' first | split at h | split_ifs at h
  all_goals simp_all
  all_goals obtain ⟨pr, hpr, -, -, heq⟩ := h
  all_goals cases pr with
    | none => exact absurd heq (by simp)
    | some g' => exact pawnSuffix_shape _ _ ((by simpa using heq : g' = g) ▸ hpr)

theorem pawnResult_shape (cs : List Char) (ff : Option Char) (f r : Char)
    (g : List Char) (h : pawnResult cs = some (ff, f, r, some g)) :
    ∃ c, g = ['=', c] := by
  unfold pawnResult at h
  repeat' first | split at h | split_ifs at h
  all_goals try simp_all
  all_goals first
    | exact pawnCore_shape _ _ _ _ h.1
    | exact pawnCore_shape _ _ _ _ (by assumption)

theorem parseMoveInput_total (input : String) :
    ∃ templates, parseMoveInput input = .ok templates := by
  suffices h : ∃ ts, parseAlgebraic input = .ok ts by
    obtain ⟨ts, hts⟩ := h
    exact ⟨parseUCI input ++ ts, by unfold parseMoveInput; rw [hts]; rfl⟩
  unfold parseAlgebraic
  by_cases h1 : uciShape input.data = true
  · exact ⟨[], by simp [h1]⟩
  by_cases h2 : hasOOO (stripAlg input.data) = true
  · exact ⟨_, by simp [h1, h2]; rfl⟩
  by_cases h3 : hasOO (stripAlg input.data) = true
  · exact ⟨_, by simp [h1, h2, h3]; rfl⟩
  rcases hp : pawnResult (stripAlg input.data) with _ | ⟨ff, tf, tr, promo⟩
  · exact ⟨_, by simp [h1, h2, h3, hp]; rfl⟩
  · by_cases h4 : ff = some tf
    · exact ⟨_, by simp [h1, h2, h3, hp, h4]; rfl⟩
    · rcases promo with _ | g
      · exact ⟨_, by simp [h1, h2, h3, hp, h4]; rfl⟩
      · obtain ⟨c, rfl⟩ := pawnResult_shape _ _ _ _ _ hp
        exact ⟨_, by simp [h1, h2, h3, hp, h4]; rfl⟩

/-- Helper: file characters are not castling characters. -/
theorem isO_eq_false_of_isFileChar (c : Char) (h : isFileChar c = true) :
    isO c = false := by
  cases h2 : isO c
  · rfl
  · simp only [isO, Bool.or_eq_true, beq_iff_eq] at h2
    rcases h2 with (rfl | rfl) | rfl <;> exact absurd h (by decide)

/-- Helper: rank characters are not castling characters. -/
theorem isO_eq_false_of_isRankChar (c : Char) (h : isRankChar c = true) :
    isO c = false := by
  cases h2 : isO c
  · rfl
  · simp only [isO, Bool.or_eq_true, beq_iff_eq] at h2
    rcases h2 with (rfl | rfl) | rfl <;> exact absurd h (by decide)

/-- Helper: the promotion letters `rqknb` are not castling characters. -/
theorem isO_eq_false_of_isPromoRejChar (c : Char) (h : isPromoRejChar c = true) :
    isO c = false := by
  cases h2 : isO c
  · rfl
  · simp only [isO, Bool.or_eq_true, beq_iff_eq] at h2
    simp only [isPromoRejChar, Bool.or_eq_true, beq_iff_eq] at h
    rcases h2 with (rfl | rfl) | rfl <;>
      rcases h with (((h | h) | h) | h) | h <;> exact absurd h (by decide)

/-- Helper: a list without castling characters fails the `/[o0][o0]/i` test. -/
theorem hasOO_eq_false : ∀ (l : List Char), (∀ c ∈ l, isO c = false) →
    hasOO l = false
  | [], _ => rfl
  | [_], _ => rfl
  | a :: b :: rest, h => by
    have ih := hasOO_eq_false (b :: rest)
      (fun c hc => h c (List.mem_cons_of_mem a hc))
    simp [hasOO, ih, h a (by simp), h b (by simp)]

/-- Helper: input accepted by the strict-UCI-shape regex contains, after
stripping, no castling characters at all (its characters are whitespace,
files, ranks and promotion letters only). -/
theorem stripAlg_no_oo_of_uciShape (cs : List Char) (h : uciShape cs = true) :
    ∀ c ∈ stripAlg cs, isO c = false := by
  intro c hc
  rw [stripAlg, List.mem_filter] at hc
  obtain ⟨hmem, hkeep⟩ := hc
  have hsplit : c ∈ cs.takeWhile isSpace ++ cs.dropWhile isSpace := by
    rw [List.takeWhile_append_dropWhile]; exact hmem
  have hnotspace : isSpace c = false := by
    cases hsp : isSpace c
    · rfl
    · exfalso
      have : isStrippedChar c = true := by simp [isStrippedChar, hsp]
      simp [this] at hkeep
  rcases List.mem_append.mp hsplit with hl | hr
  · exact absurd (List.mem_takeWhile_imp hl) (by simp [hnotspace])
  · unfold uciShape at h
    split at h
    case h_2 => exact absurd h (by simp)
    case h_1 f1 r1 f2 r2 rest heq =>
      rw [heq] at hr
      simp only [List.mem_cons] at hr
      simp only [Bool.and_eq_true] at h
      obtain ⟨⟨⟨⟨hf1, hr1⟩, hf2⟩, hr2⟩, hrest⟩ := h
      rcases hr with rfl | rfl | rfl | rfl | hrest'
      · exact isO_eq_false_of_isFileChar _ hf1
      · exact isO_eq_false_of_isRankChar _ hr1
      · exact isO_eq_false_of_isFileChar _ hf2
      · exact isO_eq_false_of_isRankChar _ hr2
      · split at hrest
        · exact absurd hrest' (by simp)
        case h_2 c2 rest2 =>
          split_ifs at hrest with hpromo
          · rcases List.mem_cons.mp hrest' with rfl | hr2'
            · exact isO_eq_false_of_isPromoRejChar _ hpromo
            · exact absurd (List.all_eq_true.mp hrest _ hr2') (by simp [hnotspace])
          · exact absurd (List.all_eq_true.mp hrest _ hrest') (by simp [hnotspace])

/-- C4: whenever the stripped input contains two consecutive characters from
`{o, O, 0}`, `parseAlgebraic` returns exactly the two hard-coded long-castling
king templates if three consecutive such characters occur, and the two
short-castling templates otherwise, discarding everything else in the input:
the castling patterns are unanchored substring tests. -/
theorem parseAlgebraic_castling (input : String)
    (h : hasOO (stripAlg input.toList) = true) :
    parseAlgebraic input =
      .ok (if hasOOO (stripAlg input.toList) = true then
             [⟨'k', "e1", "c1", none⟩, ⟨'k', "e8", "c8", none⟩]
           else
             [⟨'k', "e1", "g1", none⟩, ⟨'k', "e8", "g8", none⟩]) := by
  have hdata : input.toList = input.data := rfl
  rw [hdata] at h ⊢
  have huci : uciShape input.data = false := by
    cases hu : uciShape input.data
    · rfl
    · have hno := stripAlg_no_oo_of_uciShape _ hu
      rw [hasOO_eq_false _ hno] at h
      exact absurd h (by simp)
  by_cases h3 : hasOOO (stripAlg input.data) = true
  · simp [parseAlgebraic, huci, h3]
  · simp [parseAlgebraic, huci, h3, h]

/-- C4 witness: the input `"foo"` (which contains `oo` once stripped) yields
the two short-castling templates. -/
theorem parseAlgebraic_castling_witness :
    parseAlgebraic "foo" =
      .ok [⟨'k', "e1", "g1", none⟩, ⟨'k', "e8", "g8", none⟩] := by
  have h := parseAlgebraic_castling "foo" (by rfl)
  rw [h]
  rfl

/-- Helper: destructing a valid square name. -/
theorem validateSquareName_eq (s : String) (h : validateSquareName s = true) :
    ∃ f r, s.data = [f, r] ∧ isFileChar f = true ∧ isRankChar r = true := by
  unfold validateSquareName at h
  split at h
  case h_1 f r heq =>
    rw [Bool.and_eq_true] at h
    exact ⟨f, r, heq, h.1, h.2⟩
  case h_2 => exact absurd h (by simp)

/-- Helper: numeric bounds of the `[a-h]` class. -/
theorem isFileChar_bounds (c : Char) (h : isFileChar c = true) :
    97 ≤ c.toNat ∧ c.toNat ≤ 104 := by
  simp only [isFileChar, Bool.and_eq_true, decide_eq_true_eq] at h
  exact h

/-- Helper: numeric bounds of the `[1-8]` class. -/
theorem isRankChar_bounds (c : Char) (h : isRankChar c = true) :
    49 ≤ c.toNat ∧ c.toNat ≤ 56 := by
  simp only [isRankChar, Bool.and_eq_true, decide_eq_true_eq] at h
  exact h

/-- Helper: numeric bounds of the `[rqknb]` class. -/
theorem isPromoRejChar_bounds (c : Char) (h : isPromoRejChar c = true) :
    98 ≤ c.toNat ∧ c.toNat ≤ 114 := by
  simp only [isPromoRejChar, Bool.or_eq_true, beq_iff_eq] at h
  rcases h with (((rfl | rfl) | rfl) | rfl) | rfl <;> exact (by decide)

/-- Helper: every JS whitespace code point is an ASCII control/space (at most
32) or lies at 160 and beyond. -/
theorem isSpace_bounds (c : Char) (h : isSpace c = true) :
    c.toNat ≤ 32 ∨ 160 ≤ c.toNat := by
  have hmem := of_decide_eq_true h
  simp only [List.mem_cons, List.mem_singleton, List.not_mem_nil,
    or_false] at hmem
  rcases hmem with h | h | h | h | h | h | h | h | h | h | h | h | h | h | h
    | h | h | h | h | h | h | h | h | h | h <;> omega

/-- Helper: square-name and promotion characters survive both strippings of
the parser (they are neither spaces, dashes nor parentheses). -/
theorem uciChar_not_stripped (c : Char)
    (h : isFileChar c = true ∨ isRankChar c = true ∨ isPromoRejChar c = true) :
    (c == ' ') = false ∧ (c == '-') = false ∧ isSpace c = false := by
  refine ⟨?_, ?_, ?_⟩
  · cases hx : (c == ' ')
    · rfl
    · rw [beq_iff_eq] at hx
      subst hx
      rcases h with h | h | h <;> exact absurd h (by decide)
  · cases hx : (c == '-')
    · rfl
    · rw [beq_iff_eq] at hx
      subst hx
      rcases h with h | h | h <;> exact absurd h (by decide)
  · cases hx : isSpace c
    · rfl
    · exfalso
      have hb := isSpace_bounds c hx
      rcases h with h | h | h
      · have hc := isFileChar_bounds c h
        omega
      · have hc := isRankChar_bounds c h
        omega
      · have hc := isPromoRejChar_bounds c h
        omega

/-- Helper: appending strings concatenates their character lists. -/
theorem string_append_data (a b : String) : (a ++ b).data = a.data ++ b.data := by
  rcases a with ⟨d1⟩
  rcases b with ⟨d2⟩
  rfl

/-- C5: for valid squares s, s', the 4-character concatenation parses to
exactly one template (wildcard piece, from = s, to = s', no promotion), and
appending a promotion character yields exactly one template carrying it; the
algebraic path contributes nothing for strict-UCI-shaped input. -/
theorem parseMoveInput_uci (s s' : String) (c : Char)
    (hs : validateSquareName s = true) (hs' : validateSquareName s' = true)
    (hc : isPromoRejChar c = true) :
    parseMoveInput (s ++ s') = .ok [⟨'.', s, s', none⟩]
    ∧ parseMoveInput (s ++ s' ++ String.mk [c]) = .ok [⟨'.', s, s', some c⟩] := by
  obtain ⟨f, r, hsd, hf, hr⟩ := validateSquareName_eq s hs
  obtain ⟨f', r', hsd', hf', hr'⟩ := validateSquareName_eq s' hs'
  obtain ⟨hf1, hf2, hf3⟩ := uciChar_not_stripped f (Or.inl hf)
  obtain ⟨hr1, hr2, hr3⟩ := uciChar_not_stripped r (Or.inr (Or.inl hr))
  obtain ⟨hf1', hf2', hf3'⟩ := uciChar_not_stripped f' (Or.inl hf')
  obtain ⟨hr1', hr2', hr3'⟩ := uciChar_not_stripped r' (Or.inr (Or.inl hr'))
  obtain ⟨hc1, hc2, hc3⟩ := uciChar_not_stripped c (Or.inr (Or.inr hc))
  have hmk : String.mk [f, r] = s := by rw [← hsd]
  have hmk' : String.mk [f', r'] = s' := by rw [← hsd']
  have hds : (s ++ s').data = [f, r, f', r'] := by
    rw [string_append_data, hsd, hsd']
    rfl
  have hds2 : (s ++ s' ++ String.mk [c]).data = [f, r, f', r', c] := by
    rw [string_append_data, string_append_data, hsd, hsd']
    rfl
  constructor
  · have hu : parseUCI (s ++ s') = [⟨'.', s, s', none⟩] := by
      unfold parseUCI
      have htl : (s ++ s').toList = [f, r, f', r'] := hds
      rw [htl]
      simp only [List.filter, hf1, hf2, hr1, hr2, hf1', hf2', hr1', hr2',
        Bool.or_self, Bool.not_false]
      simp [validateSquareName, hmk, hmk', hf, hr, hf', hr',
        List.take, List.drop]
    have halg : parseAlgebraic (s ++ s') = .ok [] := by
      have huci : uciShape (s ++ s').toList = true := by
        show uciShape (s ++ s').data = true
        rw [hds]
        unfold uciShape
        simp [List.dropWhile, hf3, hf, hr, hf', hr']
      unfold parseAlgebraic
      rw [if_pos huci]
    have hb : parseMoveInput (s ++ s') = .ok (parseUCI (s ++ s') ++ []) := by
      unfold parseMoveInput
      rw [halg]
      rfl
    rw [hb, hu]
    rfl
  · have hu : parseUCI (s ++ s' ++ String.mk [c]) = [⟨'.', s, s', some c⟩] := by
      unfold parseUCI
      have htl : (s ++ s' ++ String.mk [c]).toList = [f, r, f', r', c] := hds2
      rw [htl]
      simp only [List.filter, hf1, hf2, hr1, hr2, hf1', hf2', hr1', hr2',
        hc1, hc2, Bool.or_self, Bool.not_false]
      simp [validateSquareName, hmk, hmk', hf, hr, hf', hr',
        List.take, List.drop]
    have halg : parseAlgebraic (s ++ s' ++ String.mk [c]) = .ok [] := by
      have huci : uciShape (s ++ s' ++ String.mk [c]).toList = true := by
        show uciShape (s ++ s' ++ String.mk [c]).data = true
        rw [hds2]
        unfold uciShape
        simp [List.dropWhile, hf3, hf, hr, hf', hr', hc, hc3]
      unfold parseAlgebraic
      rw [if_pos huci]
    have hb : parseMoveInput (s ++ s' ++ String.mk [c])
        = .ok (parseUCI (s ++ s' ++ String.mk [c]) ++ []) := by
      unfold parseMoveInput
      rw [halg]
      rfl
    rw [hb, hu]
    rfl

/-- C5 witness: `"e2" ++ "e4"` and `"e2" ++ "e4" ++ "q"` parse to the expected
single templates. -/
theorem parseMoveInput_uci_witness :
    parseMoveInput ("e2" ++ "e4") = .ok [⟨'.', "e2", "e4", none⟩]
    ∧ parseMoveInput ("e2" ++ "e4" ++ String.mk ['q'])
        = .ok [⟨'.', "e2", "e4", some 'q'⟩] :=
  parseMoveInput_uci "e2" "e4" 'q' rfl rfl rfl

/-- Helper: conflict resolution only ever removes moves, so membership in its
result implies membership in its input. -/
theorem mem_of_mem_excludeConflictingMoves (moves : List IMove) (m : IMove)
    (h : m ∈ excludeConflictingMoves moves) : m ∈ moves := by
  simp only [excludeConflictingMoves] at h
  split at h
  · split at h
    case h_1 pawnMove hfind =>
      rw [List.mem_singleton] at h
      exact h ▸ List.mem_of_find?_eq_some hfind
    case h_2 => exact absurd h (by simp)
  · exact h

/-- C6: the resolver never returns a move whose origin piece is a pawn, whose
destination rank is 1 or 8, and whose promotion piece is absent — such
candidates are filtered out rather than defaulted.  Piece setups are keyed by
square in the source, so areas are assumed distinct. -/
theorem getLegalMoves_no_unpromoted (pieces : List PieceEntry)
    (isLegal : TArea → TArea → Bool) (turn : Bool)
    (templates : List IMoveTemplate)
    (hnd : (pieces.map (fun p => p.area)).Nodup) :
    ∀ m ∈ getLegalMoves pieces isLegal turn templates,
      ∀ p ∈ pieces, p.area = m.fromSq → p.type = 'p' →
        ((squareToCoords m.toSq).2 = 1 ∨ (squareToCoords m.toSq).2 = 8) →
        m.promotionPiece ≠ none := by
  intro m hm p hp harea htype hrank hpromo
  unfold getLegalMoves at hm
  split at hm
  · exact absurd hm (by simp)
  · have hm' := mem_of_mem_excludeConflictingMoves _ _ hm
    simp only [List.mem_flatMap, List.mem_map, List.mem_filter] at hm'
    obtain ⟨mv, hmv, p0, ⟨hp0mem, hp0pred⟩, hm0⟩ := hm'
    have harea0 : p.area = p0.area := by
      rw [harea, ← hm0]
    have hpp0 : p = p0 :=
      List.inj_on_of_nodup_map hnd hp hp0mem harea0
    have htoSq : mv.toSq = m.toSq := by rw [← hm0]
    have hpromo' : mv.promotionPiece = none := by rw [← hm0] at hpromo; exact hpromo
    have hA : (p0.type == 'p'
        && ((squareToCoords mv.toSq).2 == 1 || (squareToCoords mv.toSq).2 == 8)
        && mv.promotionPiece.isNone) = true := by
      rw [← hpp0, htype, htoSq, hpromo']
      rcases hrank with h1 | h1 <;> simp [h1]
    rw [if_pos hA] at hp0pred
    exact absurd hp0pred (by simp)

/-- C6 witness: a pawn on d7 with a fully-permissive oracle: the template with
promotion resolves and its move indeed carries a promotion piece. -/
theorem getLegalMoves_no_unpromoted_witness :
    (⟨'.', "d7", "e8", some 'q'⟩ : IMove).promotionPiece ≠ none :=
  getLegalMoves_no_unpromoted [⟨1, 'p', "d7"⟩] (fun _ _ => true) true
    [⟨'.', "d7", "e8", some 'q'⟩] (by decide)
    ⟨'.', "d7", "e8", some 'q'⟩ (by decide)
    ⟨1, 'p', "d7"⟩ (by decide) rfl rfl (Or.inr (by decide))

/-- Helper: updating an existing key in place, then reading it back. -/
theorem recGet_map_update_self {α β : Type} [DecidableEq α] (m : List (α × β))
    (k : α) (v : β) (hany : m.any (fun e => decide (e.1 = k)) = true) :
    recGet (m.map (fun e => if e.1 = k then (k, v) else e)) k = some v := by
  induction m with
  | nil => simp at hany
  | cons e t ih =>
    by_cases he : e.1 = k
    · simp [recGet, he]
    · have hany' : t.any (fun e => decide (e.1 = k)) = true := by
        simp only [List.any_cons, he] at hany
        simpa using hany
      simpa [recGet, he] using ih hany'

/-- Helper: appending a fresh key, then reading it back. -/
theorem recGet_append_single_self {α β : Type} [DecidableEq α]
    (m : List (α × β)) (k : α) (v : β)
    (hany : m.any (fun e => decide (e.1 = k)) = false) :
    recGet (m ++ [(k, v)]) k = some v := by
  induction m with
  | nil => simp [recGet]
  | cons e t ih =>
    by_cases he : e.1 = k
    · exfalso
      simp [List.any_cons, he] at hany
    · have hany' : t.any (fun e => decide (e.1 = k)) = false := by
        simp only [List.any_cons, he] at hany
        simpa using hany
      simpa [recGet, he] using ih hany'

/-- Helper: reading back the key just assigned in a record. -/
theorem recGet_recSet_self {α β : Type} [DecidableEq α] (m : List (α × β))
    (k : α) (v : β) : recGet (recSet m k v) k = some v := by
  unfold recSet
  split_ifs with hany
  · exact recGet_map_update_self m k v hany
  · refine recGet_append_single_self m k v ?_
    cases hx : m.any (fun e => decide (e.1 = k))
    · rfl
    · exact absurd hx hany

/-- Helper: updating one key in place leaves other keys unchanged. -/
theorem recGet_map_update_other {α β : Type} [DecidableEq α] (m : List (α × β))
    (k : α) (v : β) (k' : α) (h : k' ≠ k) :
    recGet (m.map (fun e => if e.1 = k then (k, v) else e)) k' = recGet m k' := by
  induction m with
  | nil => rfl
  | cons e t ih =>
    by_cases he : e.1 = k
    · simpa [recGet, he, Ne.symm h] using ih
    · by_cases he' : e.1 = k'
      · simp [recGet, he, he', h]
      · simpa [recGet, he, he'] using ih

/-- Helper: appending a fresh key leaves other keys unchanged. -/
theorem recGet_append_single_other {α β : Type} [DecidableEq α]
    (m : List (α × β)) (k : α) (v : β) (k' : α) (h : k' ≠ k) :
    recGet (m ++ [(k, v)]) k' = recGet m k' := by
  induction m with
  | nil => simp [recGet, Ne.symm h]
  | cons e t ih =>
    by_cases he' : e.1 = k'
    · simp [recGet, he']
    · simpa [recGet, he'] using ih

/-- Helper: assigning one key leaves every other key unchanged. -/
theorem recGet_recSet_other {α β : Type} [DecidableEq α] (m : List (α × β))
    (k : α) (v : β) (k' : α) (h : k' ≠ k) :
    recGet (recSet m k v) k' = recGet m k' := by
  unfold recSet
  split_ifs with hany
  · exact recGet_map_update_other m k v k' h
  · exact recGet_append_single_other m k v k' h

/-- Helper: reading back a directional entry just written. -/
theorem recGet2_setPieceMap_self (pm : PieceMap) (p : TPiece)
    (d : KeyDirection) (a : TArea) :
    recGet2 (setPieceMap pm p d a) p d = some a := by
  unfold setPieceMap recGet2
  rw [recGet_recSet_self]
  exact recGet_recSet_self _ _ _

/-- Helper: writing one directional entry leaves every other (kind,
direction) pair unchanged. -/
theorem recGet2_setPieceMap_other (pm : PieceMap) (p : TPiece)
    (d : KeyDirection) (a : TArea) (p' : TPiece) (d' : KeyDirection)
    (h : ¬(p' = p ∧ d' = d)) :
    recGet2 (setPieceMap pm p d a) p' d' = recGet2 pm p' d' := by
  by_cases hp : p' = p
  · subst hp
    have hd : d' ≠ d := fun hdd => h ⟨rfl, hdd⟩
    unfold setPieceMap recGet2
    rw [recGet_recSet_self]
    dsimp only
    rw [recGet_recSet_other _ _ _ _ hd]
    cases hdm : recGet pm p' with
    | none => rfl
    | some dm0 => rfl
  · unfold setPieceMap recGet2
    rw [recGet_recSet_other _ _ _ _ hp]

/-- Helper: writing an entry of one piece kind leaves the whole record of any
other kind unchanged. -/
theorem recGet_setPieceMap_other (pm : PieceMap) (p : TPiece)
    (d : KeyDirection) (a : TArea) (p' : TPiece) (h : p' ≠ p) :
    recGet (setPieceMap pm p d a) p' = recGet pm p' := by
  unfold setPieceMap
  exact recGet_recSet_other _ _ _ _ h

/-- Helper: the effect of the own-move rewrite loop on an arbitrary lookup:
a (kind, direction) entry is rewritten to the destination square exactly when
the kind is the moved kind, the direction is in the iterated key snapshot,
and the entry currently holds the origin square. -/
theorem onMoveOwnLoop_lookup (piece : TPiece) (fromSq toSq : TArea) :
    ∀ (dirs : List KeyDirection) (pm : PieceMap) (p' : TPiece)
      (d' : KeyDirection),
      recGet2 (onMoveOwnLoop piece fromSq toSq pm dirs) p' d' =
        if p' = piece ∧ d' ∈ dirs ∧ recGet2 pm piece d' = some fromSq
        then some toSq else recGet2 pm p' d'
  | [], pm, p', d' => by simp [onMoveOwnLoop]
  | d :: rest, pm, p', d' => by
    have ih := onMoveOwnLoop_lookup piece fromSq toSq rest
    unfold onMoveOwnLoop
    by_cases hcond : recGet2 pm piece d = some fromSq
    · rw [if_pos hcond, ih]
      by_cases hp : p' = piece
      · subst hp
        by_cases hd : d' = d
        · subst hd
          rw [recGet2_setPieceMap_self]
          have hL : (if p' = p' ∧ d' ∈ rest ∧ (some toSq : Option TArea) = some fromSq
              then (some toSq : Option TArea) else some toSq) = some toSq := by
            split_ifs <;> rfl
          rw [hL, if_pos ⟨rfl, List.mem_cons_self d' rest, hcond⟩]
        · have h1 := recGet2_setPieceMap_other pm p' d toSq p' d'
            (fun hpd => hd hpd.2)
          rw [h1]
          by_cases hX : recGet2 pm p' d' = some fromSq
          · by_cases hmem : d' ∈ rest
            · rw [if_pos ⟨rfl, hmem, hX⟩,
                if_pos ⟨rfl, List.mem_cons_of_mem _ hmem, hX⟩]
            · rw [if_neg (fun hc => hmem hc.2.1),
                if_neg (fun hc =>
                  (List.mem_cons.mp hc.2.1).elim (fun hdd => hd hdd) hmem)]
          · rw [if_neg (fun hc => hX hc.2.2), if_neg (fun hc => hX hc.2.2)]
      · have h1 := recGet2_setPieceMap_other pm piece d toSq p' d'
          (fun hpd => hp hpd.1)
        rw [if_neg (fun hc => hp hc.1), if_neg (fun hc => hp hc.1), h1]
    · rw [if_neg hcond, ih]
      by_cases hp : p' = piece
      · subst hp
        by_cases hX : recGet2 pm p' d' = some fromSq
        · by_cases hmem : d' ∈ rest
          · rw [if_pos ⟨rfl, hmem, hX⟩,
              if_pos ⟨rfl, List.mem_cons_of_mem _ hmem, hX⟩]
          · have hd : d' ≠ d := fun hdd => hcond (hdd ▸ hX)
            rw [if_neg (fun hc => hmem hc.2.1),
              if_neg (fun hc =>
                (List.mem_cons.mp hc.2.1).elim (fun hdd => hd hdd) hmem)]
        · rw [if_neg (fun hc => hX hc.2.2), if_neg (fun hc => hX hc.2.2)]
      · rw [if_neg (fun hc => hp hc.1), if_neg (fun hc => hp hc.1)]

/-- Helper: a direction with a registered square is among the record's keys. -/
theorem mem_keys_of_recGet2_some (pm : PieceMap) (p : TPiece)
    (d : KeyDirection) (sq : TArea) (dm : DirectionMap)
    (hdm : recGet pm p = some dm) (h : recGet2 pm p d = some sq) :
    d ∈ dm.map (fun e => e.1) := by
  unfold recGet2 at h
  rw [hdm] at h
  unfold recGet at h
  rw [Option.map_eq_some'] at h
  obtain ⟨e, hfind, -⟩ := h
  have hpred : e.1 = d := by
    have := List.find?_some hfind
    simpa using this
  exact List.mem_map.mpr ⟨e, List.mem_of_find?_eq_some hfind, hpred⟩

/-- C8: processing an own-side, non-castling move rewrites exactly the
direction entries of the moved kind that hold the origin square to the
destination square; every other entry (other kinds, and other directions of
the same kind) is unchanged, and when the moved kind is untracked the map is
returned as-is. -/
theorem onMove_own_frame (pm : PieceMap) (playingAs : Nat) (mv : MoveData)
    (hcolor : mv.color = playingAs) (h1 : mv.san ≠ "O-O") (h2 : mv.san ≠ "O-O-O") :
    ∃ pm', onMove pm playingAs mv = .ok pm'
      ∧ (∀ p d, p ≠ mv.piece → recGet2 pm' p d = recGet2 pm p d)
      ∧ (∀ d, recGet2 pm mv.piece d = some mv.fromSq →
          recGet2 pm' mv.piece d = some mv.toSq)
      ∧ (∀ d, recGet2 pm mv.piece d ≠ some mv.fromSq →
          recGet2 pm' mv.piece d = recGet2 pm mv.piece d)
      ∧ (recGet pm mv.piece = none → pm' = pm) := by
  unfold onMove
  rw [if_pos hcolor, if_neg (fun hor => hor.elim h1 h2)]
  cases hdm : recGet pm mv.piece with
  | none =>
    refine ⟨pm, rfl, fun _ _ _ => rfl, fun d hd => ?_, fun _ _ => rfl, fun _ => rfl⟩
    exfalso
    unfold recGet2 at hd
    rw [hdm] at hd
    exact absurd hd (by simp)
  | some dm =>
    refine ⟨_, rfl, ?_, ?_, ?_, ?_⟩
    · intro p d hp
      rw [onMoveOwnLoop_lookup, if_neg (fun hc => hp hc.1)]
    · intro d hd
      have hmem : d ∈ dm.map (fun e => e.1) :=
        mem_keys_of_recGet2_some pm mv.piece d mv.fromSq dm hdm hd
      rw [onMoveOwnLoop_lookup, if_pos ⟨rfl, hmem, hd⟩]
    · intro d hd
      rw [onMoveOwnLoop_lookup, if_neg (fun hc => hd hc.2.2)]
    · intro hnone
      exact absurd hnone (by simp)

/-- C8 witness: the spec's example — after the rook move a1→a4 is reported,
`rook.GENERAL` becomes a4 and `rook.RIGHT` stays h1. -/
theorem onMove_own_frame_witness :
    ∃ pm', onMove [('r', [(KeyDirection.GENERAL, "a1"), (KeyDirection.RIGHT, "h1")])]
        1 ⟨"Ra4", 1, 'r', "a1", "a4", none⟩ = .ok pm'
      ∧ recGet2 pm' 'r' KeyDirection.GENERAL = some "a4"
      ∧ recGet2 pm' 'r' KeyDirection.RIGHT = some "h1" := by
  obtain ⟨pm', hok, hother, hrw, hkeep, huntracked⟩ :=
    onMove_own_frame [('r', [(KeyDirection.GENERAL, "a1"), (KeyDirection.RIGHT, "h1")])]
      1 ⟨"Ra4", 1, 'r', "a1", "a4", none⟩ rfl (by decide) (by decide)
  refine ⟨pm', hok, hrw KeyDirection.GENERAL (by rfl), ?_⟩
  rw [hkeep KeyDirection.RIGHT (by decide)]
  rfl

/-- Helper: the comparator ordering is reflexive. -/
theorem persLE_refl (playingAs : Nat) (a : IPiece) : persLE playingAs a a := by
  simp only [persLE, pieceComparator]
  split_ifs <;> omega

/-- Helper: the comparator ordering is total. -/
theorem persLE_total (playingAs : Nat) (a b : IPiece) :
    persLE playingAs a b ∨ persLE playingAs b a := by
  simp only [persLE, pieceComparator]
  split_ifs <;> omega

/-- Helper: the comparator ordering is transitive. -/
theorem persLE_trans (playingAs : Nat) (a b c : IPiece) :
    persLE playingAs a b → persLE playingAs b c → persLE playingAs a c := by
  simp only [persLE, pieceComparator]
  split_ifs <;> omega

/-- Helper: the head of a sorted list is below every member. -/
theorem sorted_head_min {α : Type} (r : α → α → Prop) (hrefl : ∀ a, r a a)
    (l : List α) (hs : l.Sorted r) (a : α) (ha : l.head? = some a) :
    ∀ x ∈ l, r a x := by
  cases l with
  | nil => exact absurd ha (by simp)
  | cons b t =>
    have hb : b = a := by simpa using ha
    subst hb
    intro x hx
    rcases List.mem_cons.mp hx with rfl | hx'
    · exact hrefl _
    · exact (List.sorted_cons.mp hs).1 x hx'

/-- Helper: the last element of a sorted list is above every member. -/
theorem sorted_last_max {α : Type} (r : α → α → Prop) (hrefl : ∀ a, r a a) :
    ∀ (l : List α), l.Sorted r → ∀ b, l.getLast? = some b → ∀ x ∈ l, r x b
  | [], _, b, hb => absurd hb (by simp)
  | [a], _, b, hb => by
    have hab : a = b := by simpa using hb
    subst hab
    intro x hx
    have : x = a := by simpa using hx
    subst this
    exact hrefl _
  | a :: c :: t, hs, b, hb => by
    intro x hx
    have hb' : (c :: t).getLast? = some b := by
      simpa [List.getLast?_cons_cons] using hb
    rcases List.mem_cons.mp hx with rfl | hx'
    · have hbmem : b ∈ c :: t := List.mem_of_getLast?_eq_some hb'
      exact (List.sorted_cons.mp hs).1 b hbmem
    · exact sorted_last_max r hrefl (c :: t) (List.sorted_cons.mp hs).2 b hb' x hx'

/-- Helper: a congruence for two-level lookups. -/
theorem recGet2_congr (pm pm' : PieceMap) (k : TPiece)
    (h : recGet pm k = recGet pm' k) (d : KeyDirection) :
    recGet2 pm k d = recGet2 pm' k d := by
  unfold recGet2
  rw [h]

/-- Helper: `processPieces` only writes entries of the processed kind. -/
theorem processPieces_frame (pm : PieceMap) (ps : List IPiece) (k k' : TPiece)
    (hk : ∀ p ∈ ps, p.type = k) (hne : k' ≠ k) :
    recGet (processPieces pm ps) k' = recGet pm k' := by
  cases ps with
  | nil => rfl
  | cons g rest =>
    have hg : g.type = k := hk g (List.mem_cons_self g rest)
    cases rest with
    | nil =>
      unfold processPieces
      dsimp only
      rw [hg]
      exact recGet_setPieceMap_other _ _ _ _ _ hne
    | cons r rs =>
      have hlast : ((r :: rs).getLast (List.cons_ne_nil r rs)).type = k :=
        hk _ (List.mem_cons_of_mem g (List.getLast_mem (List.cons_ne_nil r rs)))
      unfold processPieces
      dsimp only
      rw [hg, hlast]
      rw [recGet_setPieceMap_other _ _ _ _ _ hne,
        recGet_setPieceMap_other _ _ _ _ _ hne]

/-- Helper: the first processed piece is registered as GENERAL. -/
theorem processPieces_general (pm : PieceMap) (k : TPiece) (g : IPiece)
    (rest : List IPiece) (hk : ∀ p ∈ g :: rest, p.type = k) :
    recGet2 (processPieces pm (g :: rest)) k KeyDirection.GENERAL
      = some g.square := by
  have hg : g.type = k := hk g (List.mem_cons_self g rest)
  cases rest with
  | nil =>
    unfold processPieces
    dsimp only
    rw [hg]
    exact recGet2_setPieceMap_self _ _ _ _
  | cons r rs =>
    have hlast : ((r :: rs).getLast (List.cons_ne_nil r rs)).type = k :=
      hk _ (List.mem_cons_of_mem g (List.getLast_mem (List.cons_ne_nil r rs)))
    unfold processPieces
    dsimp only
    rw [hg, hlast]
    rw [recGet2_setPieceMap_other _ _ _ _ _ _ (fun hc => by cases hc.2)]
    exact recGet2_setPieceMap_self _ _ _ _

/-- Helper: `processPieces` never writes a LEFT entry. -/
theorem processPieces_left (pm : PieceMap) (k : TPiece) (ps : List IPiece)
    (hk : ∀ p ∈ ps, p.type = k) (h0 : recGet pm k = none) :
    recGet2 (processPieces pm ps) k KeyDirection.LEFT = none := by
  have hpm : recGet2 pm k KeyDirection.LEFT = none := by
    unfold recGet2
    rw [h0]
  cases ps with
  | nil => exact hpm
  | cons g rest =>
    have hg : g.type = k := hk g (List.mem_cons_self g rest)
    cases rest with
    | nil =>
      unfold processPieces
      dsimp only
      rw [hg]
      rw [recGet2_setPieceMap_other _ _ _ _ _ _ (fun hc => by cases hc.2)]
      exact hpm
    | cons r rs =>
      have hlast : ((r :: rs).getLast (List.cons_ne_nil r rs)).type = k :=
        hk _ (List.mem_cons_of_mem g (List.getLast_mem (List.cons_ne_nil r rs)))
      unfold processPieces
      dsimp only
      rw [hg, hlast]
      rw [recGet2_setPieceMap_other _ _ _ _ _ _ (fun hc => by cases hc.2),
        recGet2_setPieceMap_other _ _ _ _ _ _ (fun hc => by cases hc.2)]
      exact hpm

/-- Helper: a single processed piece gets no RIGHT entry. -/
theorem processPieces_right_single (pm : PieceMap) (k : TPiece) (g : IPiece)
    (hk : ∀ p ∈ [g], p.type = k) (h0 : recGet pm k = none) :
    recGet2 (processPieces pm [g]) k KeyDirection.RIGHT = none := by
  have hg : g.type = k := hk g (List.mem_cons_self g [])
  unfold processPieces
  dsimp only
  rw [hg]
  rw [recGet2_setPieceMap_other _ _ _ _ _ _ (fun hc => by cases hc.2)]
  unfold recGet2
  rw [h0]

/-- Helper: with at least two pieces the last processed piece is registered
as RIGHT. -/
theorem processPieces_right_multi (pm : PieceMap) (k : TPiece) (g r : IPiece)
    (rs : List IPiece) (hk : ∀ p ∈ g :: r :: rs, p.type = k) :
    recGet2 (processPieces pm (g :: r :: rs)) k KeyDirection.RIGHT
      = some ((r :: rs).getLast (List.cons_ne_nil r rs)).square := by
  have hg : g.type = k := hk g (List.mem_cons_self g (r :: rs))
  have hlast : ((r :: rs).getLast (List.cons_ne_nil r rs)).type = k :=
    hk _ (List.mem_cons_of_mem g (List.getLast_mem (List.cons_ne_nil r rs)))
  unfold processPieces
  dsimp only
  rw [hg, hlast]
  exact recGet2_setPieceMap_self _ _ _ _

/-- Helper: full characterization of one `processPieces` stage run on the
sorted pieces of one kind, starting from a map with no entry for that kind. -/
theorem processPieces_sorted_spec (pm : PieceMap) (playingAs : Nat)
    (k : TPiece) (kp : List IPiece) (htypes : ∀ p ∈ kp, p.type = k)
    (h0 : recGet pm k = none) :
    (kp = [] →
      recGet (processPieces pm (kp.insertionSort (persLE playingAs))) k = none)
    ∧ (kp ≠ [] → ∃ g ∈ kp, (∀ p ∈ kp, persLE playingAs g p)
        ∧ recGet2 (processPieces pm (kp.insertionSort (persLE playingAs))) k
            KeyDirection.GENERAL = some g.square)
    ∧ (kp.length ≤ 1 →
      recGet2 (processPieces pm (kp.insertionSort (persLE playingAs))) k
        KeyDirection.RIGHT = none)
    ∧ (2 ≤ kp.length → ∃ rp ∈ kp, (∀ p ∈ kp, persLE playingAs p rp)
        ∧ recGet2 (processPieces pm (kp.insertionSort (persLE playingAs))) k
            KeyDirection.RIGHT = some rp.square)
    ∧ recGet2 (processPieces pm (kp.insertionSort (persLE playingAs))) k
        KeyDirection.LEFT = none := by
  haveI : IsTotal IPiece (persLE playingAs) := ⟨persLE_total playingAs⟩
  haveI : IsTrans IPiece (persLE playingAs) :=
    ⟨fun a b c => persLE_trans playingAs a b c⟩
  have hperm : List.Perm (kp.insertionSort (persLE playingAs)) kp :=
    List.perm_insertionSort _ _
  have htypesL : ∀ p ∈ kp.insertionSort (persLE playingAs), p.type = k :=
    fun p hp => htypes p (hperm.subset hp)
  have hsorted : (kp.insertionSort (persLE playingAs)).Sorted (persLE playingAs) :=
    List.sorted_insertionSort _ _
  refine ⟨?_, ?_, ?_, ?_, ?_⟩
  · intro hnil
    have hL : kp.insertionSort (persLE playingAs) = [] :=
      List.eq_nil_of_length_eq_zero (by rw [hperm.length_eq, hnil]; rfl)
    rw [hL]
    exact h0
  · intro hne
    have hLne : kp.insertionSort (persLE playingAs) ≠ [] := by
      intro hL
      exact hne (List.eq_nil_of_length_eq_zero
        (by rw [← hperm.length_eq, hL]; rfl))
    obtain ⟨g, rest, hcons⟩ := List.exists_cons_of_ne_nil hLne
    refine ⟨g, hperm.subset (hcons ▸ List.mem_cons_self g rest), ?_, ?_⟩
    · intro p hp
      exact sorted_head_min _ (persLE_refl playingAs) _ hsorted g
        (by rw [hcons]; rfl) p (hperm.mem_iff.mpr hp)
    · rw [hcons]
      exact processPieces_general pm k g rest (hcons ▸ htypesL)
  · intro hlen
    have hLlen : (kp.insertionSort (persLE playingAs)).length ≤ 1 :=
      hperm.length_eq ▸ hlen
    rcases hc : kp.insertionSort (persLE playingAs) with _ | ⟨g, _ | ⟨r, rs⟩⟩
    · show recGet2 pm k KeyDirection.RIGHT = none
      unfold recGet2
      rw [h0]
    · exact processPieces_right_single pm k g (hc ▸ htypesL) h0
    · exfalso
      rw [hc] at hLlen
      simp at hLlen
  · intro hlen
    have hLlen : 2 ≤ (kp.insertionSort (persLE playingAs)).length :=
      hperm.length_eq ▸ hlen
    rcases hc : kp.insertionSort (persLE playingAs) with _ | ⟨g, _ | ⟨r, rs⟩⟩
    · exfalso
      rw [hc] at hLlen
      simp at hLlen
    · exfalso
      rw [hc] at hLlen
      simp at hLlen
    · have hlastmem : ((r :: rs).getLast (List.cons_ne_nil r rs))
          ∈ kp.insertionSort (persLE playingAs) := by
        rw [hc]
        exact List.mem_cons_of_mem g (List.getLast_mem _)
      refine ⟨(r :: rs).getLast (List.cons_ne_nil r rs),
        hperm.subset hlastmem, ?_, ?_⟩
      · intro p hp
        refine sorted_last_max _ (persLE_refl playingAs) _ hsorted _ ?_
          p (hperm.mem_iff.mpr hp)
        rw [hc, List.getLast?_cons_cons]
        exact List.getLast?_eq_getLast _ _
      · exact processPieces_right_multi pm k g r rs (hc ▸ htypesL)
  · exact processPieces_left pm k _ htypesL h0

/-- Helper: the members of a kind's sorted list inside `initializePieceMap`
have that kind. -/
theorem initialize_htype (allPieces : List IPiece) (playingAs : Nat)
    (k0 : TPiece) :
    ∀ p ∈ (kindPieces allPieces playingAs k0).insertionSort (persLE playingAs),
      p.type = k0 := by
  intro p hp
  have hmem := (List.perm_insertionSort (persLE playingAs)
    (kindPieces allPieces playingAs k0)).subset hp
  exact of_decide_eq_true (List.mem_filter.mp hmem).2

/-- Helper: `initializePieceMap` written as its three processing stages. -/
theorem initializePieceMap_stages (allPieces : List IPiece) (playingAs : Nat) :
    initializePieceMap allPieces playingAs
      = processPieces (processPieces (processPieces []
          ((kindPieces allPieces playingAs 'r').insertionSort (persLE playingAs)))
          ((kindPieces allPieces playingAs 'n').insertionSort (persLE playingAs)))
          ((kindPieces allPieces playingAs 'q').insertionSort (persLE playingAs)) :=
  rfl

/-- Helper: kind-level lookup of the initialized map, reduced to the stage
that handles the kind. -/
theorem initialize_kind_stage (allPieces : List IPiece) (playingAs : Nat) :
    recGet (initializePieceMap allPieces playingAs) 'r'
      = recGet (processPieces []
          ((kindPieces allPieces playingAs 'r').insertionSort (persLE playingAs))) 'r'
    ∧ recGet (initializePieceMap allPieces playingAs) 'n'
      = recGet (processPieces (processPieces []
          ((kindPieces allPieces playingAs 'r').insertionSort (persLE playingAs)))
          ((kindPieces allPieces playingAs 'n').insertionSort (persLE playingAs))) 'n'
    ∧ recGet (initializePieceMap allPieces playingAs) 'q'
      = recGet (processPieces (processPieces (processPieces []
          ((kindPieces allPieces playingAs 'r').insertionSort (persLE playingAs)))
          ((kindPieces allPieces playingAs 'n').insertionSort (persLE playingAs)))
          ((kindPieces allPieces playingAs 'q').insertionSort (persLE playingAs))) 'q' := by
  refine ⟨?_, ?_, ?_⟩
  · rw [initializePieceMap_stages]
    rw [processPieces_frame _ _ 'q' 'r' (initialize_htype allPieces playingAs 'q')
        (by decide),
      processPieces_frame _ _ 'n' 'r' (initialize_htype allPieces playingAs 'n')
        (by decide)]
  · rw [initializePieceMap_stages]
    rw [processPieces_frame _ _ 'q' 'n' (initialize_htype allPieces playingAs 'q')
        (by decide)]
  · rw [initializePieceMap_stages]

/-- Helper: before its own stage runs, a tracked kind has no entry. -/
theorem initialize_kind_before (allPieces : List IPiece) (playingAs : Nat) :
    recGet ([] : PieceMap) 'r' = none
    ∧ recGet (processPieces []
        ((kindPieces allPieces playingAs 'r').insertionSort (persLE playingAs))) 'n'
        = none
    ∧ recGet (processPieces (processPieces []
        ((kindPieces allPieces playingAs 'r').insertionSort (persLE playingAs)))
        ((kindPieces allPieces playingAs 'n').insertionSort (persLE playingAs))) 'q'
        = none := by
  refine ⟨rfl, ?_, ?_⟩
  · rw [processPieces_frame _ _ 'r' 'n' (initialize_htype allPieces playingAs 'r')
      (by decide)]
    rfl
  · rw [processPieces_frame _ _ 'n' 'q' (initialize_htype allPieces playingAs 'n')
      (by decide),
      processPieces_frame _ _ 'r' 'q' (initialize_htype allPieces playingAs 'r')
      (by decide)]
    rfl

/-- C7: initializing from the standard starting layout for white yields
exactly rook {GENERAL a1, RIGHT h1}, knight {GENERAL b1, RIGHT g1} and queen
{GENERAL d1}; in general only rooks, knights and queens are registered, the
first piece in perspective order becomes GENERAL, the last (when the kind has
at least two pieces) becomes RIGHT, and LEFT is never assigned. -/
theorem initializePieceMap_spec :
    initializePieceMap standardStartPieces 1 =
      [('r', [(KeyDirection.GENERAL, "a1"), (KeyDirection.RIGHT, "h1")]),
       ('n', [(KeyDirection.GENERAL, "b1"), (KeyDirection.RIGHT, "g1")]),
       ('q', [(KeyDirection.GENERAL, "d1")])]
    ∧ ∀ (allPieces : List IPiece) (playingAs : Nat),
        (∀ k, recGet2 (initializePieceMap allPieces playingAs) k
            KeyDirection.LEFT = none)
        ∧ (∀ k, k ≠ 'r' → k ≠ 'n' → k ≠ 'q' →
            recGet (initializePieceMap allPieces playingAs) k = none)
        ∧ (∀ k, k = 'r' ∨ k = 'n' ∨ k = 'q' →
            (kindPieces allPieces playingAs k = [] →
              recGet (initializePieceMap allPieces playingAs) k = none)
            ∧ (kindPieces allPieces playingAs k ≠ [] →
              ∃ g ∈ kindPieces allPieces playingAs k,
                (∀ p ∈ kindPieces allPieces playingAs k, persLE playingAs g p)
                ∧ recGet2 (initializePieceMap allPieces playingAs) k
                    KeyDirection.GENERAL = some g.square)
            ∧ ((kindPieces allPieces playingAs k).length ≤ 1 →
              recGet2 (initializePieceMap allPieces playingAs) k
                KeyDirection.RIGHT = none)
            ∧ (2 ≤ (kindPieces allPieces playingAs k).length →
              ∃ rp ∈ kindPieces allPieces playingAs k,
                (∀ p ∈ kindPieces allPieces playingAs k, persLE playingAs p rp)
                ∧ recGet2 (initializePieceMap allPieces playingAs) k
                    KeyDirection.RIGHT = some rp.square)) := by
  constructor
  · decide
  intro allPieces playingAs
  obtain ⟨hstR, hstN, hstQ⟩ := initialize_kind_stage allPieces playingAs
  obtain ⟨hbR, hbN, hbQ⟩ := initialize_kind_before allPieces playingAs
  have htypesOf : ∀ k, ∀ p ∈ kindPieces allPieces playingAs k, p.type = k :=
    fun k p hp => of_decide_eq_true (List.mem_filter.mp hp).2
  have hspecR := processPieces_sorted_spec [] playingAs 'r'
    (kindPieces allPieces playingAs 'r') (htypesOf 'r') hbR
  have hspecN := processPieces_sorted_spec (processPieces []
      ((kindPieces allPieces playingAs 'r').insertionSort (persLE playingAs)))
    playingAs 'n' (kindPieces allPieces playingAs 'n') (htypesOf 'n') hbN
  have hspecQ := processPieces_sorted_spec (processPieces (processPieces []
      ((kindPieces allPieces playingAs 'r').insertionSort (persLE playingAs)))
      ((kindPieces allPieces playingAs 'n').insertionSort (persLE playingAs)))
    playingAs 'q' (kindPieces allPieces playingAs 'q') (htypesOf 'q') hbQ
  have huntracked : ∀ k, k ≠ 'r' → k ≠ 'n' → k ≠ 'q' →
      recGet (initializePieceMap allPieces playingAs) k = none := by
    intro k h1 h2 h3
    rw [initializePieceMap_stages]
    rw [processPieces_frame _ _ 'q' k (initialize_htype allPieces playingAs 'q') h3,
      processPieces_frame _ _ 'n' k (initialize_htype allPieces playingAs 'n') h2,
      processPieces_frame _ _ 'r' k (initialize_htype allPieces playingAs 'r') h1]
    rfl
  have htracked : ∀ k, k = 'r' ∨ k = 'n' ∨ k = 'q' →
      (kindPieces allPieces playingAs k = [] →
        recGet (initializePieceMap allPieces playingAs) k = none)
      ∧ (kindPieces allPieces playingAs k ≠ [] →
        ∃ g ∈ kindPieces allPieces playingAs k,
          (∀ p ∈ kindPieces allPieces playingAs k, persLE playingAs g p)
          ∧ recGet2 (initializePieceMap allPieces playingAs) k
              KeyDirection.GENERAL = some g.square)
      ∧ ((kindPieces allPieces playingAs k).length ≤ 1 →
        recGet2 (initializePieceMap allPieces playingAs) k
          KeyDirection.RIGHT = none)
      ∧ (2 ≤ (kindPieces allPieces playingAs k).length →
        ∃ rp ∈ kindPieces allPieces playingAs k,
          (∀ p ∈ kindPieces allPieces playingAs k, persLE playingAs p rp)
          ∧ recGet2 (initializePieceMap allPieces playingAs) k
              KeyDirection.RIGHT = some rp.square) := by
    intro k hk
    rcases hk with rfl | rfl | rfl
    · refine ⟨?_, ?_, ?_, ?_⟩
      · intro hnil
        rw [hstR]
        exact hspecR.1 hnil
      · intro hne
        obtain ⟨g, hgmem, hgmin, hgeq⟩ := hspecR.2.1 hne
        exact ⟨g, hgmem, hgmin, by rw [recGet2_congr _ _ _ hstR]; exact hgeq⟩
      · intro hlen
        rw [recGet2_congr _ _ _ hstR]
        exact hspecR.2.2.1 hlen
      · intro hlen
        obtain ⟨rp, hmem, hmax, heq⟩ := hspecR.2.2.2.1 hlen
        exact ⟨rp, hmem, hmax, by rw [recGet2_congr _ _ _ hstR]; exact heq⟩
    · refine ⟨?_, ?_, ?_, ?_⟩
      · intro hnil
        rw [hstN]
        exact hspecN.1 hnil
      · intro hne
        obtain ⟨g, hgmem, hgmin, hgeq⟩ := hspecN.2.1 hne
        exact ⟨g, hgmem, hgmin, by rw [recGet2_congr _ _ _ hstN]; exact hgeq⟩
      · intro hlen
        rw [recGet2_congr _ _ _ hstN]
        exact hspecN.2.2.1 hlen
      · intro hlen
        obtain ⟨rp, hmem, hmax, heq⟩ := hspecN.2.2.2.1 hlen
        exact ⟨rp, hmem, hmax, by rw [recGet2_congr _ _ _ hstN]; exact heq⟩
    · refine ⟨?_, ?_, ?_, ?_⟩
      · intro hnil
        rw [hstQ]
        exact hspecQ.1 hnil
      · intro hne
        obtain ⟨g, hgmem, hgmin, hgeq⟩ := hspecQ.2.1 hne
        exact ⟨g, hgmem, hgmin, by rw [recGet2_congr _ _ _ hstQ]; exact hgeq⟩
      · intro hlen
        rw [recGet2_congr _ _ _ hstQ]
        exact hspecQ.2.2.1 hlen
      · intro hlen
        obtain ⟨rp, hmem, hmax, heq⟩ := hspecQ.2.2.2.1 hlen
        exact ⟨rp, hmem, hmax, by rw [recGet2_congr _ _ _ hstQ]; exact heq⟩
  have hleft : ∀ k, recGet2 (initializePieceMap allPieces playingAs) k
      KeyDirection.LEFT = none := by
    intro k
    by_cases h1 : k = 'r'
    · subst h1
      rw [recGet2_congr _ _ _ hstR]
      exact hspecR.2.2.2.2
    by_cases h2 : k = 'n'
    · subst h2
      rw [recGet2_congr _ _ _ hstN]
      exact hspecN.2.2.2.2
    by_cases h3 : k = 'q'
    · subst h3
      rw [recGet2_congr _ _ _ hstQ]
      exact hspecQ.2.2.2.2
    · unfold recGet2
      rw [huntracked k h1 h2 h3]
  exact ⟨hleft, huntracked, htracked⟩

/-- C7 witness: for the standard white layout the rook stage produces a
minimal GENERAL rook. -/
theorem initializePieceMap_spec_witness :
    ∃ g ∈ kindPieces standardStartPieces 1 'r',
      (∀ p ∈ kindPieces standardStartPieces 1 'r', persLE 1 g p)
      ∧ recGet2 (initializePieceMap standardStartPieces 1) 'r'
          KeyDirection.GENERAL = some g.square :=
  ((initializePieceMap_spec.2 standardStartPieces 1).2.2 'r'
    (Or.inl rfl)).2.1 (by decide)
